import Mathlib

set_option autoImplicit false

/-! Verification of the edit-statistics aggregation engine of `src/app.py`:
`edit_dict_factory`, `get_edit_dict`, `merge_edit_dicts`, `add_rate_keys`
(Derive) and `remove_zero_edits` (Sanitize).

Modelling choices.  A Python dict is an association list whose update rewrites
the first entry with a matching key; `defaultdict` reads that create a missing
entry are an update that appends the default entry when the key is absent
(dict equality ignores insertion order, so list order is a harmless
representation detail).  The entries built by the factory always carry the
five keys `insert`, `delete`, `reference_ct`, `hypothesis_ct`, `substitute`,
so they are a fixed structure; after `add_rate_keys` the two rate keys are
present as well, and after `remove_zero_edits` any key may be missing, which
is an `Option` field.  Python float division is modelled over `ℚ`, a
`ZeroDivisionError` or `TypeError` as `Except.error ()`.  In `get_edit_dict`
the truthiness guards `if hyp_substr:` / `if ref_substr:` test against the
`None` fill value of `zip_longest`; symbols themselves (characters, words
from `str.split`) are nonempty strings, hence truthy, so the guard is an
`Option.isSome` test, while the unguarded edit-count updates use the possibly
`None` value itself as a key, so those tables are keyed by `Option σ`. -/

/-- The four `jiwer` alignment chunk types (the `align.type` strings compared
in `get_edit_dict`). -/
inductive ChunkType : Type where
  | equal : ChunkType
  | insert : ChunkType
  | delete : ChunkType
  | substitute : ChunkType
deriving DecidableEq, Repr

/-- One alignment chunk; field names follow `jiwer.process.AlignmentChunk`. -/
structure AlignmentChunk : Type where
  type : ChunkType
  ref_start_idx : Nat
  ref_end_idx : Nat
  hyp_start_idx : Nat
  hyp_end_idx : Nat
deriving DecidableEq, Repr

/-- Value of one member of a `substitute` sub-dict before rates are derived:
the dict `{'ct': n}` built by the inner `defaultdict` of the factory. -/
structure SubCt : Type where
  ct : Nat
deriving DecidableEq, Repr

/-- The entry the `edit_dict_factory` defaultdict creates for one symbol:
`{'insert': …, 'delete': …, 'reference_ct': …, 'hypothesis_ct': …,
'substitute': …}` (counts only, no rate keys yet). -/
structure RawEntry (κ : Type) : Type where
  insert : Nat
  delete : Nat
  reference_ct : Nat
  hypothesis_ct : Nat
  substitute : List (κ × SubCt)
deriving DecidableEq, Repr

/-- An edit dict prior to `add_rate_keys`. -/
abbrev EditTable (κ : Type) : Type := List (κ × RawEntry κ)

/-- The per-key default of the `edit_dict_factory` defaultdict (the lambda in
`src/app.py` lines 23-29): all counts zero, empty `substitute` dict. -/
def default_edit_entry (κ : Type) : RawEntry κ :=
  { insert := 0, delete := 0, reference_ct := 0, hypothesis_ct := 0, substitute := [] }

/-- `edit_dict_factory()` returns an empty defaultdict. -/
def edit_dict_factory (κ : Type) : EditTable κ := []

/-- Reading `d[k]` on the factory defaultdict and storing back an updated
entry: the first entry with key `k` is rewritten; when `k` is absent the
defaultdict creates the default entry, which the update then acts on. -/
def dd_modify {κ : Type} [DecidableEq κ] : EditTable κ → κ → (RawEntry κ → RawEntry κ) → EditTable κ
  | [], k, f => [(k, f (default_edit_entry κ))]
  | (k1, e) :: rest, k, f =>
    if k1 = k then (k1, f e) :: rest else (k1, e) :: dd_modify rest k f

/-- The value `d[k]` would read (default entry when absent). -/
def dd_get {κ : Type} [DecidableEq κ] : EditTable κ → κ → RawEntry κ
  | [], _ => default_edit_entry κ
  | (k1, e) :: rest, k => if k1 = k then e else dd_get rest k

/-- Same update discipline for the inner `substitute` defaultdict, whose
per-key default is `{'ct': 0}`. -/
def sub_modify {κ : Type} [DecidableEq κ] : List (κ × SubCt) → κ → (SubCt → SubCt) → List (κ × SubCt)
  | [], k, f => [(k, f { ct := 0 })]
  | (k1, s) :: rest, k, f =>
    if k1 = k then (k1, f s) :: rest else (k1, s) :: sub_modify rest k f

/-- `edit_dict[x]['hypothesis_ct'] += 1`. -/
def inc_hyp {κ : Type} (e : RawEntry κ) : RawEntry κ :=
  { e with hypothesis_ct := e.hypothesis_ct + 1 }

/-- `edit_dict[x]['reference_ct'] += 1`. -/
def inc_ref {κ : Type} (e : RawEntry κ) : RawEntry κ :=
  { e with reference_ct := e.reference_ct + 1 }

/-- `edit_dict[x]['insert'] += 1`. -/
def inc_ins {κ : Type} (e : RawEntry κ) : RawEntry κ :=
  { e with insert := e.insert + 1 }

/-- `edit_dict[x]['delete'] += 1`. -/
def inc_del {κ : Type} (e : RawEntry κ) : RawEntry κ :=
  { e with delete := e.delete + 1 }

/-- `edit_dict[x]['substitute'][t]['ct'] += 1`. -/
def inc_sub {κ : Type} [DecidableEq κ] (t : κ) (e : RawEntry κ) : RawEntry κ :=
  { e with substitute := sub_modify e.substitute t (fun s => { ct := s.ct + 1 }) }

/-- `itertools.zip_longest(a, b, fillvalue=None)`. -/
def zipLongest {α β : Type} : List α → List β → List (Option α × Option β)
  | [], ys => ys.map (fun y => (none, some y))
  | x :: xs, [] => (some x, none) :: zipLongest xs []
  | x :: xs, y :: ys => (some x, some y) :: zipLongest xs ys

/-- Python slice `l[s:e]` for nonnegative bounds. -/
def pySlice {α : Type} (l : List α) (s e : Nat) : List α := (l.take e).drop s

/-- Body of the inner loop of `get_edit_dict` (src/app.py lines 53-63) for one
`(hyp_substr, ref_substr)` pair delivered by `zip_longest`.  The occurrence
counts are guarded by truthiness of the value, the edit counts are not and key
the table by the possibly-`None` value itself. -/
def procPair {σ : Type} [DecidableEq σ] (ty : ChunkType) (d : EditTable (Option σ))
    (p : Option σ × Option σ) : EditTable (Option σ) :=
  let d1 := match p.1 with
    | some _ => dd_modify d p.1 inc_hyp
    | none => d
  let d2 := match p.2 with
    | some _ => dd_modify d1 p.2 inc_ref
    | none => d1
  match ty with
  | ChunkType.insert => dd_modify d2 p.1 inc_ins
  | ChunkType.delete => dd_modify d2 p.2 inc_del
  | ChunkType.substitute => dd_modify d2 p.2 (inc_sub p.1)
  | ChunkType.equal => d2

/-- Body of the outer loop of `get_edit_dict` for one alignment chunk. -/
def procChunk {σ : Type} [DecidableEq σ] (reference hypothesis : List σ)
    (d : EditTable (Option σ)) (align : AlignmentChunk) : EditTable (Option σ) :=
  (zipLongest (pySlice hypothesis align.hyp_start_idx align.hyp_end_idx)
      (pySlice reference align.ref_start_idx align.ref_end_idx)).foldl
    (procPair align.type) d

/-- `get_edit_dict(reference, hypothesis, alignments, edit_dict)` (the caller
passes the table explicitly; the `None` default creates a fresh factory
table, i.e. `[]`). -/
def get_edit_dict {σ : Type} [DecidableEq σ] (reference hypothesis : List σ)
    (alignments : List AlignmentChunk) (edit_dict : EditTable (Option σ)) :
    EditTable (Option σ) :=
  alignments.foldl (procChunk reference hypothesis) edit_dict

/-- The four `main_dict[char][edit] += val` additions of `merge_edit_dicts`
for the integer-valued keys of one incoming entry. -/
def merge_counts {κ : Type} (e incoming : RawEntry κ) : RawEntry κ :=
  { e with
    insert := e.insert + incoming.insert,
    delete := e.delete + incoming.delete,
    reference_ct := e.reference_ct + incoming.reference_ct,
    hypothesis_ct := e.hypothesis_ct + incoming.hypothesis_ct }

/-- `merge_edit_dicts(main_dict, incoming)` (src/app.py lines 66-81).  For each
incoming entry the four integer counts are added into `main_dict` (creating
the entry through the defaultdict when absent).  For the `substitute` key the
source runs `main_dict[char][edit][tgt_char] += ct` where `ct` is the inner
dict `{'ct': n}`; `dict += dict` is unsupported in Python and raises
`TypeError` on the first target, modelled by `Except.error ()`. -/
def merge_edit_dicts {κ : Type} [DecidableEq κ] : EditTable κ → EditTable κ → Except Unit (EditTable κ)
  | main_dict, [] => Except.ok main_dict
  | main_dict, (ch, edits) :: rest =>
    let m := dd_modify main_dict ch (fun e => merge_counts e edits)
    match edits.substitute with
    | [] => merge_edit_dicts m rest
    | _ :: _ => Except.error ()

/-- State-passing form of `merge_edit_dicts`: on success the triple is
`(final value of main_dict, final value of incoming, returned value)`.  The
source loop writes only `main_dict` (never `incoming`, which it only
iterates) and ends with `return main_dict`, so the returned value is the
final value of the first argument. -/
def merge_st {κ : Type} [DecidableEq κ] (main_dict incoming : EditTable κ) :
    Except Unit (EditTable κ × EditTable κ × EditTable κ) :=
  match merge_edit_dicts main_dict incoming with
  | Except.ok t => Except.ok (t, incoming, t)
  | Except.error u => Except.error u

/-- A `substitute` member once `add_rate_keys` has run: `{'ct': n, 'rate': r}`. -/
structure DSub : Type where
  ct : Nat
  rate : ℚ
deriving DecidableEq, Repr

/-- A symbol entry once `add_rate_keys` has run: the factory keys plus
`insert_rate` and `delete_rate`. -/
structure DEntry (κ : Type) : Type where
  insert : Nat
  delete : Nat
  reference_ct : Nat
  hypothesis_ct : Nat
  substitute : List (κ × DSub)
  insert_rate : ℚ
  delete_rate : ℚ
deriving DecidableEq, Repr

/-- An edit dict after `add_rate_keys`. -/
abbrev DTable (κ : Type) : Type := List (κ × DEntry κ)

/-- Python `a / b` on two counts: float division, `ZeroDivisionError` when
`b == 0`, modelled over `ℚ`. -/
def pydiv (a b : Nat) : Except Unit ℚ :=
  if b = 0 then Except.error () else Except.ok ((a : ℚ) / (b : ℚ))

/-- The loop of `add_rate_keys` over one entry's `substitute` dict:
`rate = sub_ct / ref_ct if sub_ct else 0` per target. -/
def rate_subs {κ : Type} (ref_ct : Nat) : List (κ × SubCt) → Except Unit (List (κ × DSub))
  | [] => Except.ok []
  | (t, s) :: rest =>
    match (if s.ct ≠ 0 then pydiv s.ct ref_ct else Except.ok 0), rate_subs ref_ct rest with
    | Except.ok r, Except.ok rs => Except.ok ((t, { ct := s.ct, rate := r }) :: rs)
    | Except.error u, _ => Except.error u
    | _, Except.error u => Except.error u

/-- Body of `add_rate_keys` for one entry: `insert_rate = insert_ct/hyp_ct if
insert_ct else 0`, `delete_rate = delete_ct/ref_ct if delete_ct else 0`, and
the per-target substitute rates.  Note the guards test the numerators. -/
def add_rate_entry {κ : Type} (e : RawEntry κ) : Except Unit (DEntry κ) :=
  match (if e.insert ≠ 0 then pydiv e.insert e.hypothesis_ct else Except.ok 0) with
  | Except.error u => Except.error u
  | Except.ok ir =>
    match (if e.delete ≠ 0 then pydiv e.delete e.reference_ct else Except.ok 0) with
    | Except.error u => Except.error u
    | Except.ok dr =>
      match rate_subs e.reference_ct e.substitute with
      | Except.error u => Except.error u
      | Except.ok subs =>
        Except.ok
          { insert := e.insert, delete := e.delete,
            reference_ct := e.reference_ct, hypothesis_ct := e.hypothesis_ct,
            substitute := subs, insert_rate := ir, delete_rate := dr }

/-- `add_rate_keys(d)` (src/app.py lines 83-101). -/
def add_rate_keys {κ : Type} : EditTable κ → Except Unit (DTable κ)
  | [] => Except.ok []
  | (s, e) :: rest =>
    match add_rate_entry e, add_rate_keys rest with
    | Except.ok de, Except.ok ds => Except.ok ((s, de) :: ds)
    | Except.error u, _ => Except.error u
    | _, Except.error u => Except.error u

/-- The Rate Deriver as §4.3 of the spec words it, for one entry:
`insertRate = insertCount / hypothesisCount` if `hypothesisCount > 0` else 0,
`deleteRate = deleteCount / referenceCount` if `referenceCount > 0` else 0,
and `rate = substitutions[s][t] / referenceCount[s]` per target. -/
def derive_spec_entry {κ : Type} (e : RawEntry κ) : DEntry κ :=
  { insert := e.insert, delete := e.delete,
    reference_ct := e.reference_ct, hypothesis_ct := e.hypothesis_ct,
    substitute := e.substitute.map
      (fun p => (p.1, { ct := p.2.ct, rate := (p.2.ct : ℚ) / (e.reference_ct : ℚ) })),
    insert_rate := if 0 < e.hypothesis_ct then (e.insert : ℚ) / (e.hypothesis_ct : ℚ) else 0,
    delete_rate := if 0 < e.reference_ct then (e.delete : ℚ) / (e.reference_ct : ℚ) else 0 }

/-- The Rate Deriver as the spec words it, per table. -/
def derive_spec {κ : Type} (d : EditTable κ) : DTable κ :=
  d.map (fun p => (p.1, derive_spec_entry p.2))

/-- A symbol entry after `remove_zero_edits`: every key may have been popped. -/
structure SEntry (κ : Type) : Type where
  insert : Option Nat
  delete : Option Nat
  reference_ct : Option Nat
  hypothesis_ct : Option Nat
  substitute : Option (List (κ × DSub))
  insert_rate : Option ℚ
  delete_rate : Option ℚ
deriving DecidableEq, Repr

/-- An edit dict after `remove_zero_edits`. -/
abbrev STable (κ : Type) : Type := List (κ × SEntry κ)

/-- One pass of the `remove_zero_edits` loop body over one entry: every key
whose value compares `== 0` is popped, and `substitute` is popped when empty
(a dict never compares equal to `0`, so `substitute` is only popped by the
length test). -/
def sanitize_entry {κ : Type} (e : DEntry κ) : SEntry κ :=
  { insert := if e.insert = 0 then none else some e.insert,
    delete := if e.delete = 0 then none else some e.delete,
    reference_ct := if e.reference_ct = 0 then none else some e.reference_ct,
    hypothesis_ct := if e.hypothesis_ct = 0 then none else some e.hypothesis_ct,
    substitute := if e.substitute.isEmpty then none else some e.substitute,
    insert_rate := if e.insert_rate = 0 then none else some e.insert_rate,
    delete_rate := if e.delete_rate = 0 then none else some e.delete_rate }

/-- `remove_zero_edits(d)` (src/app.py lines 103-112), as the value it
returns. -/
def remove_zero_edits {κ : Type} (d : DTable κ) : STable κ :=
  d.map (fun p => (p.1, sanitize_entry p.2))

/-- State-passing form of `remove_zero_edits`: `(final value of the argument,
returned value)`.  The source pops keys from the entries of `d` itself while
iterating and ends with `return d`, so both components are the same pruned
table. -/
def remove_zero_edits_st {κ : Type} (d : DTable κ) : STable κ × STable κ :=
  (remove_zero_edits d, remove_zero_edits d)

/-- A derived dict value re-expressed in the post-sanitize shape: every key
present.  Used to state whether a sanitize call left its input unchanged. -/
def dtable_as_shape {κ : Type} (d : DTable κ) : STable κ :=
  d.map (fun p => (p.1,
    { insert := some p.2.insert, delete := some p.2.delete,
      reference_ct := some p.2.reference_ct, hypothesis_ct := some p.2.hypothesis_ct,
      substitute := some p.2.substitute,
      insert_rate := some p.2.insert_rate, delete_rate := some p.2.delete_rate }))

/-- The `add_rate_keys` then `remove_zero_edits` sequence of `main`. -/
def derive_sanitize {κ : Type} (d : EditTable κ) : Except Unit (STable κ) :=
  match add_rate_keys d with
  | Except.ok d2 => Except.ok (remove_zero_edits d2)
  | Except.error u => Except.error u

/-- Sum of `reference_ct` over a table. -/
def sumRef {κ : Type} (d : EditTable κ) : Nat :=
  (d.map (fun p => p.2.reference_ct)).sum

/-- Sum of `hypothesis_ct` over a table. -/
def sumHyp {κ : Type} (d : EditTable κ) : Nat :=
  (d.map (fun p => p.2.hypothesis_ct)).sum

/-- The §3 count invariants for one entry: `insertCount ≤ hypothesisCount`,
`deleteCount ≤ referenceCount`, and each substitution count bounded by
`referenceCount` (an absent target counts 0, so members suffice). -/
abbrev entry_inv {κ : Type} (e : RawEntry κ) : Prop :=
  e.insert ≤ e.hypothesis_ct ∧ e.delete ≤ e.reference_ct ∧
    ∀ p ∈ e.substitute, (p : κ × SubCt).2.ct ≤ e.reference_ct

/-- The §3 count invariants for a table. -/
abbrev table_inv {κ : Type} (d : EditTable κ) : Prop := ∀ p ∈ d, entry_inv p.2

/-- All rates of a derived table lie in the unit interval. -/
def rates_in_unit {κ : Type} (d2 : DTable κ) : Prop :=
  ∀ p ∈ d2, (0 ≤ (p : κ × DEntry κ).2.insert_rate ∧ p.2.insert_rate ≤ 1) ∧
    (0 ≤ p.2.delete_rate ∧ p.2.delete_rate ≤ 1) ∧
    ∀ q ∈ p.2.substitute, 0 ≤ (q : κ × DSub).2.rate ∧ q.2.rate ≤ 1

/-- The §3 coverage invariant of a chunk list against the two sequence
lengths, carrying the current offsets: spans contiguous from the offsets,
within bounds, ending exactly at the sequence lengths; `insert` chunks have an
empty reference span, `delete` chunks an empty hypothesis span,
`equal`/`substitute` chunks spans of equal non-zero length. -/
def chunks_wf (r0 h0 rLen hLen : Nat) : List AlignmentChunk → Bool
  | [] => r0 == rLen && h0 == hLen
  | c :: rest =>
    c.ref_start_idx == r0 && c.hyp_start_idx == h0 &&
    decide (r0 ≤ c.ref_end_idx) && decide (c.ref_end_idx ≤ rLen) &&
    decide (h0 ≤ c.hyp_end_idx) && decide (c.hyp_end_idx ≤ hLen) &&
    (match c.type with
     | ChunkType.insert => c.ref_end_idx == c.ref_start_idx
     | ChunkType.delete => c.hyp_end_idx == c.hyp_start_idx
     | ChunkType.equal =>
        (c.ref_end_idx - c.ref_start_idx == c.hyp_end_idx - c.hyp_start_idx) &&
        decide (c.ref_start_idx < c.ref_end_idx)
     | ChunkType.substitute =>
        (c.ref_end_idx - c.ref_start_idx == c.hyp_end_idx - c.hyp_start_idx) &&
        decide (c.ref_start_idx < c.ref_end_idx)) &&
    chunks_wf c.ref_end_idx c.hyp_end_idx rLen hLen rest

/-- Edit tables reachable from the empty table by `get_edit_dict` calls whose
alignments satisfy the §3 coverage invariant. -/
inductive Reachable {σ : Type} [DecidableEq σ] : EditTable (Option σ) → Prop where
  | empty : Reachable []
  | step (reference hypothesis : List σ) (cs : List AlignmentChunk)
      (d : EditTable (Option σ)) :
      Reachable d →
      chunks_wf 0 0 reference.length hypothesis.length cs = true →
      Reachable (get_edit_dict reference hypothesis cs d)

instance {ε α : Type} [DecidableEq ε] [DecidableEq α] : DecidableEq (Except ε α) :=
  fun x y =>
    match x, y with
    | Except.error a, Except.error b =>
      if h : a = b then Decidable.isTrue (congrArg Except.error h)
      else Decidable.isFalse (fun hc => h (Except.error.inj hc))
    | Except.error _, Except.ok _ => Decidable.isFalse (fun hc => Except.noConfusion hc)
    | Except.ok _, Except.error _ => Decidable.isFalse (fun hc => Except.noConfusion hc)
    | Except.ok a, Except.ok b =>
      if h : a = b then Decidable.isTrue (congrArg Except.ok h)
      else Decidable.isFalse (fun hc => h (Except.ok.inj hc))

/-- Reference `"cat"` as a symbol sequence. -/
def catL : List Char := ['c', 'a', 't']

/-- Hypothesis `"cot"` as a symbol sequence. -/
def cotL : List Char := ['c', 'o', 't']

/-- Scenario 1 alignment: `equal('c'), substitute('a'→'o'), equal('t')`. -/
def scenario1_chunks : List AlignmentChunk :=
  [{ type := ChunkType.equal, ref_start_idx := 0, ref_end_idx := 1,
     hyp_start_idx := 0, hyp_end_idx := 1 },
   { type := ChunkType.substitute, ref_start_idx := 1, ref_end_idx := 2,
     hyp_start_idx := 1, hyp_end_idx := 2 },
   { type := ChunkType.equal, ref_start_idx := 2, ref_end_idx := 3,
     hyp_start_idx := 2, hyp_end_idx := 3 }]

/-- Expected Scenario 1 table after Derive and Sanitize. -/
def c4_expected : STable (Option Char) :=
  [(some 'c', { insert := none, delete := none, reference_ct := some 1,
                hypothesis_ct := some 1, substitute := none, insert_rate := none,
                delete_rate := none }),
   (some 'o', { insert := none, delete := none, reference_ct := none,
                hypothesis_ct := some 1, substitute := none, insert_rate := none,
                delete_rate := none }),
   (some 'a', { insert := none, delete := none, reference_ct := some 1,
                hypothesis_ct := none,
                substitute := some [(some 'o', { ct := 1, rate := 1 })],
                insert_rate := none, delete_rate := none }),
   (some 't', { insert := none, delete := none, reference_ct := some 1,
                hypothesis_ct := some 1, substitute := none, insert_rate := none,
                delete_rate := none })]

/-- Incoming table with one substitution entry, for the merge TypeError. -/
def c1B : EditTable Char :=
  [('a', { insert := 0, delete := 0, reference_ct := 1, hypothesis_ct := 0,
           substitute := [('o', { ct := 1 })] })]

/-- A table holding one substitution (`a`→`o` once). -/
def c2A : EditTable Char :=
  [('a', { insert := 0, delete := 0, reference_ct := 1, hypothesis_ct := 0,
           substitute := [('o', { ct := 1 })] })]

/-- A table holding one insertion of `b` and no substitutions. -/
def c2B : EditTable Char :=
  [('b', { insert := 1, delete := 0, reference_ct := 0, hypothesis_ct := 1,
           substitute := [] })]

/-- First argument for the merge frame counterexample. -/
def c10A : EditTable Char :=
  [('b', { insert := 1, delete := 0, reference_ct := 0, hypothesis_ct := 1,
           substitute := [] })]

/-- Second argument with a substitution, on which the merge raises. -/
def c10B : EditTable Char :=
  [('a', { insert := 0, delete := 0, reference_ct := 1, hypothesis_ct := 0,
           substitute := [('o', { ct := 1 })] })]

/-- Concrete first argument for the merge frame witness. -/
def c10wA : EditTable Char :=
  [('b', { insert := 1, delete := 0, reference_ct := 0, hypothesis_ct := 1,
           substitute := [] })]

/-- Concrete substitution-free second argument for the merge frame witness. -/
def c10wB : EditTable Char :=
  [('b', { insert := 0, delete := 1, reference_ct := 1, hypothesis_ct := 0,
           substitute := [] }),
   ('c', { insert := 0, delete := 0, reference_ct := 2, hypothesis_ct := 2,
           substitute := [] })]

/-- The state triple `merge_st c10wA c10wB` evaluates to. -/
def c10wOut : EditTable Char × EditTable Char × EditTable Char :=
  ([('b', { insert := 1, delete := 1, reference_ct := 1, hypothesis_ct := 1,
            substitute := [] }),
    ('c', { insert := 0, delete := 0, reference_ct := 2, hypothesis_ct := 2,
            substitute := [] })],
   c10wB,
   [('b', { insert := 1, delete := 1, reference_ct := 1, hypothesis_ct := 1,
            substitute := [] }),
    ('c', { insert := 0, delete := 0, reference_ct := 2, hypothesis_ct := 2,
            substitute := [] })])

/-- Derived entry whose `reference_ct` is zero: symbol seen once in the
hypothesis only (like `o` in Scenario 1). -/
def c3entry : DEntry Char :=
  { insert := 0, delete := 0, reference_ct := 0, hypothesis_ct := 1,
    substitute := [], insert_rate := 0, delete_rate := 0 }

/-- One-entry derived table exercising the zero `reference_ct` drop. -/
def c3ex : DTable Char := [('o', c3entry)]

/-- Concrete derived table for the sanitize witness. -/
def c3w : DTable Char :=
  [('a', { insert := 1, delete := 0, reference_ct := 2, hypothesis_ct := 2,
           substitute := [('b', { ct := 2, rate := 1 })],
           insert_rate := 1, delete_rate := 0 })]

/-- Derived table whose sanitization drops a key, for the in-place effect. -/
def c9ex : DTable Char :=
  [('a', { insert := 1, delete := 0, reference_ct := 1, hypothesis_ct := 1,
           substitute := [], insert_rate := 1, delete_rate := 0 })]

/-- Raw table satisfying the §3 count invariants, for the derive witnesses. -/
def c5w : EditTable Char :=
  [('a', { insert := 0, delete := 1, reference_ct := 2, hypothesis_ct := 0,
           substitute := [('o', { ct := 2 })] }),
   ('b', { insert := 1, delete := 0, reference_ct := 0, hypothesis_ct := 3,
           substitute := [] })]

/-- The pruning discipline of the amended C3 for one entry: each of the six
count/rate fields is dropped exactly when its value is zero, `substitute`
exactly when it is empty, and every retained field keeps its value. -/
def sanitize_drop_spec {κ : Type} (q : κ × DEntry κ) : Prop :=
  ((sanitize_entry q.2).insert = none ↔ q.2.insert = 0) ∧
  (q.2.insert ≠ 0 → (sanitize_entry q.2).insert = some q.2.insert) ∧
  ((sanitize_entry q.2).delete = none ↔ q.2.delete = 0) ∧
  (q.2.delete ≠ 0 → (sanitize_entry q.2).delete = some q.2.delete) ∧
  ((sanitize_entry q.2).reference_ct = none ↔ q.2.reference_ct = 0) ∧
  (q.2.reference_ct ≠ 0 → (sanitize_entry q.2).reference_ct = some q.2.reference_ct) ∧
  ((sanitize_entry q.2).hypothesis_ct = none ↔ q.2.hypothesis_ct = 0) ∧
  (q.2.hypothesis_ct ≠ 0 → (sanitize_entry q.2).hypothesis_ct = some q.2.hypothesis_ct) ∧
  ((sanitize_entry q.2).insert_rate = none ↔ q.2.insert_rate = 0) ∧
  (q.2.insert_rate ≠ 0 → (sanitize_entry q.2).insert_rate = some q.2.insert_rate) ∧
  ((sanitize_entry q.2).delete_rate = none ↔ q.2.delete_rate = 0) ∧
  (q.2.delete_rate ≠ 0 → (sanitize_entry q.2).delete_rate = some q.2.delete_rate) ∧
  ((sanitize_entry q.2).substitute = none ↔ q.2.substitute = []) ∧
  (q.2.substitute ≠ [] → (sanitize_entry q.2).substitute = some q.2.substitute)

/-- The key/entry pair of `c3w`, for the sanitize witness. -/
def c3qw : Char × DEntry Char :=
  ('a', { insert := 1, delete := 0, reference_ct := 2, hypothesis_ct := 2,
          substitute := [('b', { ct := 2, rate := 1 })],
          insert_rate := 1, delete_rate := 0 })

/-- The raw Scenario 1 table `get_edit_dict` builds (keys in first-touch
order `c`, `o`, `a`, `t`). -/
def c4_raw : EditTable (Option Char) :=
  [(some 'c', { insert := 0, delete := 0, reference_ct := 1, hypothesis_ct := 1,
                substitute := [] }),
   (some 'o', { insert := 0, delete := 0, reference_ct := 0, hypothesis_ct := 1,
                substitute := [] }),
   (some 'a', { insert := 0, delete := 0, reference_ct := 1, hypothesis_ct := 0,
                substitute := [(some 'o', { ct := 1 })] }),
   (some 't', { insert := 0, delete := 0, reference_ct := 1, hypothesis_ct := 1,
                substitute := [] })]

/-- The Scenario 1 table after `add_rate_keys`. -/
def c4_derived : DTable (Option Char) :=
  [(some 'c', { insert := 0, delete := 0, reference_ct := 1, hypothesis_ct := 1,
                substitute := [], insert_rate := 0, delete_rate := 0 }),
   (some 'o', { insert := 0, delete := 0, reference_ct := 0, hypothesis_ct := 1,
                substitute := [], insert_rate := 0, delete_rate := 0 }),
   (some 'a', { insert := 0, delete := 0, reference_ct := 1, hypothesis_ct := 0,
                substitute := [(some 'o', { ct := 1, rate := 1 })],
                insert_rate := 0, delete_rate := 0 }),
   (some 't', { insert := 0, delete := 0, reference_ct := 1, hypothesis_ct := 1,
                substitute := [], insert_rate := 0, delete_rate := 0 })]

/-- The inner-loop pair shapes a §3-well-formed chunk of each type can
produce: `insert` chunks pair a hypothesis symbol with the `None` fill,
`delete` chunks the converse, `equal`/`substitute` chunks pair two symbols
(for `equal` any shape is harmless to the invariants). -/
def shape_ok {σ : Type} (ty : ChunkType) (p : Option σ × Option σ) : Prop :=
  match ty with
  | ChunkType.equal => True
  | ChunkType.insert => ∃ x, p = (some x, none)
  | ChunkType.delete => ∃ x, p = (none, some x)
  | ChunkType.substitute => ∃ x y, p = (some x, some y)

/-! Theorems. -/

/-- C1 (refutation at the failing input): merging any incoming table that
holds a substitution entry does not return the pointwise-sum table; the
source raises `TypeError` on `main_dict[char]['substitute'][tgt_char] += ct`
(a dict added to a dict), here at `A = {}`, `B = c1B`. -/
theorem C1_merge_substitute_typeerror :
    merge_edit_dicts (edit_dict_factory Char) c1B = Except.error () := by decide

/-- C2 (refutation at a concrete input): Merge on raw-count tables is not
commutative: `c2A` holds one substitution and `c2B` none, so
`Merge(c2A, c2B)` returns the summed table while `Merge(c2B, c2A)` raises
`TypeError`. -/
theorem C2_merge_not_commutative :
    merge_edit_dicts c2A c2B =
      Except.ok
        [('a', { insert := 0, delete := 0, reference_ct := 1, hypothesis_ct := 0,
                 substitute := [('o', { ct := 1 })] }),
         ('b', { insert := 1, delete := 0, reference_ct := 0, hypothesis_ct := 1,
                 substitute := [] })] ∧
    merge_edit_dicts c2B c2A = Except.error () := by decide

/-- C4: Scenario 1 — accumulating the single record reference `cat`,
hypothesis `cot` with alignment `equal('c'), substitute('a'→'o'), equal('t')`
into the empty table, then Derive and Sanitize, yields exactly the expected
table: `c` and `t` keep both occurrence counts, `o` keeps only
`hypothesis_ct`, and `a` keeps `reference_ct` and the substitution to `o`
with count 1 and rate 1. -/
theorem C4_scenario1_pipeline :
    derive_sanitize (get_edit_dict catL cotL scenario1_chunks (edit_dict_factory (Option Char))) =
      Except.ok c4_expected := by
  have h1 : get_edit_dict catL cotL scenario1_chunks (edit_dict_factory (Option Char)) = c4_raw := by
    decide
  have h2 : add_rate_keys c4_raw = Except.ok c4_derived := by
    norm_num [c4_raw, c4_derived, add_rate_keys, add_rate_entry, rate_subs, pydiv]
  have h3 : remove_zero_edits c4_derived = c4_expected := by decide
  unfold derive_sanitize
  rw [h1, h2]
  show Except.ok (remove_zero_edits c4_derived) = Except.ok c4_expected
  rw [h3]

/-- C3 (refutation at a concrete input): the entry for `o` has
`reference_ct == 0` and `remove_zero_edits` pops that key, although the claim
says `referenceCount` is never dropped even when zero. -/
theorem C3_counterexample :
    c3entry.reference_ct = 0 ∧ (sanitize_entry c3entry).reference_ct = none ∧
      remove_zero_edits c3ex =
        [('o', { insert := none, delete := none, reference_ct := none,
                 hypothesis_ct := some 1, substitute := none,
                 insert_rate := none, delete_rate := none })] := by decide

/-- C3 (amended): Sanitize drops, from each symbol entry, exactly those of the
six fields `insert`, `delete`, `reference_ct`, `hypothesis_ct`,
`insert_rate`, `delete_rate` whose value is exactly zero — `reference_ct` and
`hypothesis_ct` included — and the `substitute` field exactly when it is
empty; every retained field keeps its value. -/
theorem C3_sanitize_zero_fields {κ : Type} (d : DTable κ) (q : κ × DEntry κ)
    (hq : q ∈ d) :
    (q.1, sanitize_entry q.2) ∈ remove_zero_edits d ∧ sanitize_drop_spec q := by
  constructor
  · exact List.mem_map_of_mem _ hq
  · refine ⟨?_, ?_, ?_, ?_, ?_, ?_, ?_, ?_, ?_, ?_, ?_, ?_, ?_, ?_⟩ <;>
      simp only [sanitize_entry] <;>
      split_ifs with h <;>
      simp_all [List.isEmpty_iff]

/-- Witness for the amended C3 at a concrete derived table. -/
theorem C3_sanitize_zero_fields_witness :
    (c3qw.1, sanitize_entry c3qw.2) ∈ remove_zero_edits c3w ∧ sanitize_drop_spec c3qw :=
  C3_sanitize_zero_fields c3w c3qw (by decide)

/-- C9 (refutation at a concrete input): after `remove_zero_edits(c9ex)` the
input dict no longer holds its pre-call value — its zero-valued `delete` and
`delete_rate` keys and its empty `substitute` key are gone. -/
theorem C9_counterexample :
    (remove_zero_edits_st c9ex).1 ≠ dtable_as_shape c9ex := by decide

/-- C9 (amended): Sanitize prunes its input dict in place and returns that
same dict: the final value of the argument and the returned value are both
the pruned table `remove_zero_edits` describes. -/
theorem C9_sanitize_in_place {κ : Type} (d : DTable κ) :
    (remove_zero_edits_st d).1 = (remove_zero_edits_st d).2 ∧
      (remove_zero_edits_st d).2 = remove_zero_edits d :=
  ⟨rfl, rfl⟩

/-- C10 (refutation at a concrete input): with a substitution entry in the
second argument the merge raises `TypeError`, so no merged table is returned
at all and the first argument cannot equal a returned table. -/
theorem C10_counterexample : merge_st c10A c10B = Except.error () := by decide

/-- C10 (amended): whenever `merge_edit_dicts(A, B)` completes — which it does
exactly when every `substitute` dict in `B` is empty — the final value of the
first argument is the returned merged table (its pre-merge counts are
overwritten in place) and the second argument `B` is unchanged. -/
theorem C10_merge_in_place {κ : Type} [DecidableEq κ] (A B : EditTable κ)
    (out : EditTable κ × EditTable κ × EditTable κ)
    (h : merge_st A B = Except.ok out) :
    out.1 = out.2.2 ∧ out.2.1 = B := by
  cases hm : merge_edit_dicts A B with
  | ok t =>
    have ht : merge_st A B = Except.ok (t, B, t) := by simp [merge_st, hm]
    rw [ht] at h
    cases h
    exact ⟨rfl, rfl⟩
  | error u =>
    have ht : merge_st A B = Except.error u := by simp [merge_st, hm]
    rw [ht] at h
    exact Except.noConfusion h

/-- Witness for the amended C10 at a concrete substitution-free pair. -/
theorem C10_merge_in_place_witness :
    c10wOut.1 = c10wOut.2.2 ∧ c10wOut.2.1 = c10wB :=
  C10_merge_in_place c10wA c10wB c10wOut (by decide)

/-- The guarded substitute-rate loop never divides by zero when every count is
bounded by `ref_ct`, and then computes the spec's `ct / ref_ct` per target. -/
theorem rate_subs_ok {κ : Type} (r : Nat) (l : List (κ × SubCt))
    (h : ∀ p ∈ l, (p : κ × SubCt).2.ct ≤ r) :
    rate_subs r l =
      Except.ok (l.map (fun p => (p.1, ({ ct := p.2.ct, rate := (p.2.ct : ℚ) / (r : ℚ) } : DSub)))) := by
  induction l with
  | nil => rfl
  | cons a tl ih =>
    obtain ⟨t, s⟩ := a
    have hct : s.ct ≤ r := h (t, s) (List.mem_cons_self _ _)
    have htl := ih (fun p hp => h p (List.mem_cons_of_mem _ hp))
    by_cases h0 : s.ct = 0
    · simp [rate_subs, h0, htl, zero_div]
    · have hr : ¬ r = 0 := by omega
      simp [rate_subs, h0, htl, pydiv, hr]

/-- The numerator-guarded rate of the source equals the denominator-guarded
rate of the spec whenever the numerator is bounded by the denominator. -/
theorem guard_div_eq (a b : Nat) (hab : a ≤ b) :
    (if a ≠ 0 then pydiv a b else Except.ok 0) =
      Except.ok (if 0 < b then (a : ℚ) / (b : ℚ) else 0) := by
  by_cases h0 : a = 0
  · subst h0
    by_cases hb : 0 < b
    · simp [hb, zero_div]
    · simp [hb]
  · have hb0 : ¬ b = 0 := by omega
    have hb : 0 < b := by omega
    simp [h0, pydiv, hb0, hb]

/-- Under the §3 entry invariants `add_rate_keys` computes the spec's rates
for one entry. -/
theorem add_rate_entry_ok {κ : Type} (e : RawEntry κ) (h : entry_inv e) :
    add_rate_entry e = Except.ok (derive_spec_entry e) := by
  obtain ⟨hi, hd, hs⟩ := h
  unfold add_rate_entry
  rw [guard_div_eq e.insert e.hypothesis_ct hi, guard_div_eq e.delete e.reference_ct hd,
      rate_subs_ok e.reference_ct e.substitute hs]
  rfl

/-- Under the §3 table invariants `add_rate_keys` succeeds and computes the
spec's rates pointwise. -/
theorem add_rate_keys_ok {κ : Type} (d : EditTable κ) (h : table_inv d) :
    add_rate_keys d = Except.ok (derive_spec d) := by
  induction d with
  | nil => rfl
  | cons a tl ih =>
    obtain ⟨s, e⟩ := a
    have he : entry_inv e := h (s, e) (List.mem_cons_self _ _)
    have htl := ih (fun p hp => h p (List.mem_cons_of_mem _ hp))
    simp [add_rate_keys, add_rate_entry_ok e he, htl, derive_spec]

/-- C5: for every table satisfying the §3 count invariants, Derive succeeds
(no division by zero is reached, `Except.ok`) and sets
`insert_rate = insert/hypothesis_ct` when `hypothesis_ct > 0` and `0`
otherwise, `delete_rate = delete/reference_ct` when `reference_ct > 0` and
`0` otherwise, and `rate = ct/reference_ct` for each substitution target —
i.e. it returns exactly the spec-worded `derive_spec` table. -/
theorem C5_derive_rates {κ : Type} (d : EditTable κ) (h : table_inv d) :
    add_rate_keys d = Except.ok (derive_spec d) :=
  add_rate_keys_ok d h

/-- Witness for C5 at a concrete invariant-satisfying table. -/
theorem C5_derive_rates_witness :
    table_inv c5w ∧ add_rate_keys c5w = Except.ok (derive_spec c5w) :=
  ⟨by decide, C5_derive_rates c5w (by decide)⟩

/-- A quotient of counts with numerator bounded by denominator lies in the
unit interval (at denominator zero the bound forces numerator zero and the
quotient is zero). -/
theorem div_rate_mem_unit (a b : Nat) (hab : a ≤ b) :
    0 ≤ (a : ℚ) / (b : ℚ) ∧ (a : ℚ) / (b : ℚ) ≤ 1 := by
  by_cases hb : b = 0
  · have ha : a = 0 := by omega
    subst ha
    subst hb
    norm_num
  · have hb2 : (0 : ℚ) < (b : ℚ) := by exact_mod_cast Nat.pos_of_ne_zero hb
    constructor
    · exact div_nonneg (by positivity) (le_of_lt hb2)
    · rw [div_le_one hb2]
      exact_mod_cast hab

/-- The denominator-guarded spec rate lies in the unit interval. -/
theorem ite_rate_mem_unit (a b : Nat) (hab : a ≤ b) :
    0 ≤ (if 0 < b then (a : ℚ) / (b : ℚ) else 0) ∧
      (if 0 < b then (a : ℚ) / (b : ℚ) else 0) ≤ 1 := by
  by_cases hb : 0 < b
  · simpa [hb] using div_rate_mem_unit a b hab
  · simp [hb]

/-- C8: for every table satisfying the §3 count invariants, every rate Derive
produces — `insert_rate`, `delete_rate` and each per-target substitution
rate — lies in the closed interval `[0,1]`. -/
theorem C8_rate_bounds {κ : Type} (d : EditTable κ) (h : table_inv d)
    (d2 : DTable κ) (h2 : add_rate_keys d = Except.ok d2) :
    rates_in_unit d2 := by
  rw [add_rate_keys_ok d h] at h2
  cases h2
  intro p hp
  rcases List.mem_map.mp hp with ⟨q, hq, rfl⟩
  obtain ⟨hi, hd, hs⟩ := h q hq
  refine ⟨?_, ?_, ?_⟩
  · exact ite_rate_mem_unit q.2.insert q.2.hypothesis_ct hi
  · exact ite_rate_mem_unit q.2.delete q.2.reference_ct hd
  · intro u hu
    rcases List.mem_map.mp hu with ⟨v, hv, rfl⟩
    exact div_rate_mem_unit v.2.ct q.2.reference_ct (hs v hv)

/-- Witness for C8 at a concrete invariant-satisfying table. -/
theorem C8_rate_bounds_witness : rates_in_unit (derive_spec c5w) :=
  C8_rate_bounds c5w (by decide) (derive_spec c5w) (add_rate_keys_ok c5w (by decide))

/-- An update that keeps `reference_ct` keeps the table's `reference_ct` sum. -/
theorem dd_modify_sumRef_const {κ : Type} [DecidableEq κ] (d : EditTable κ) (k : κ)
    (f : RawEntry κ → RawEntry κ) (hf : ∀ e, (f e).reference_ct = e.reference_ct) :
    sumRef (dd_modify d k f) = sumRef d := by
  induction d with
  | nil => simp [dd_modify, sumRef, hf, default_edit_entry]
  | cons a tl ih =>
    obtain ⟨k1, e⟩ := a
    by_cases hk : k1 = k
    · simp [dd_modify, hk, sumRef, hf]
    · simp only [dd_modify, if_neg hk, sumRef, List.map_cons, List.sum_cons]
      simp only [sumRef] at ih
      omega

/-- An update that raises `reference_ct` by one raises the sum by one. -/
theorem dd_modify_sumRef_succ {κ : Type} [DecidableEq κ] (d : EditTable κ) (k : κ)
    (f : RawEntry κ → RawEntry κ) (hf : ∀ e, (f e).reference_ct = e.reference_ct + 1) :
    sumRef (dd_modify d k f) = sumRef d + 1 := by
  induction d with
  | nil => simp [dd_modify, sumRef, hf, default_edit_entry]
  | cons a tl ih =>
    obtain ⟨k1, e⟩ := a
    by_cases hk : k1 = k
    · simp [dd_modify, hk, sumRef, hf]
      omega
    · simp only [dd_modify, if_neg hk, sumRef, List.map_cons, List.sum_cons]
      simp only [sumRef] at ih
      omega

/-- An update that keeps `hypothesis_ct` keeps the table's `hypothesis_ct`
sum. -/
theorem dd_modify_sumHyp_const {κ : Type} [DecidableEq κ] (d : EditTable κ) (k : κ)
    (f : RawEntry κ → RawEntry κ) (hf : ∀ e, (f e).hypothesis_ct = e.hypothesis_ct) :
    sumHyp (dd_modify d k f) = sumHyp d := by
  induction d with
  | nil => simp [dd_modify, sumHyp, hf, default_edit_entry]
  | cons a tl ih =>
    obtain ⟨k1, e⟩ := a
    by_cases hk : k1 = k
    · simp [dd_modify, hk, sumHyp, hf]
    · simp only [dd_modify, if_neg hk, sumHyp, List.map_cons, List.sum_cons]
      simp only [sumHyp] at ih
      omega

/-- An update that raises `hypothesis_ct` by one raises the sum by one. -/
theorem dd_modify_sumHyp_succ {κ : Type} [DecidableEq κ] (d : EditTable κ) (k : κ)
    (f : RawEntry κ → RawEntry κ) (hf : ∀ e, (f e).hypothesis_ct = e.hypothesis_ct + 1) :
    sumHyp (dd_modify d k f) = sumHyp d + 1 := by
  induction d with
  | nil => simp [dd_modify, sumHyp, hf, default_edit_entry]
  | cons a tl ih =>
    obtain ⟨k1, e⟩ := a
    by_cases hk : k1 = k
    · simp [dd_modify, hk, sumHyp, hf]
      omega
    · simp only [dd_modify, if_neg hk, sumHyp, List.map_cons, List.sum_cons]
      simp only [sumHyp] at ih
      omega

/-- One inner-loop step adds one `reference_ct` exactly when the pair carries
a reference symbol. -/
theorem procPair_sumRef {σ : Type} [DecidableEq σ] (ty : ChunkType)
    (d : EditTable (Option σ)) (p : Option σ × Option σ) :
    sumRef (procPair ty d p) = sumRef d + (if p.2.isSome then 1 else 0) := by
  obtain ⟨ph, pr⟩ := p
  cases ph <;> cases pr <;> cases ty <;>
    simp [procPair, dd_modify_sumRef_const, dd_modify_sumRef_succ,
      inc_hyp, inc_ref, inc_ins, inc_del, inc_sub]

/-- One inner-loop step adds one `hypothesis_ct` exactly when the pair
carries a hypothesis symbol. -/
theorem procPair_sumHyp {σ : Type} [DecidableEq σ] (ty : ChunkType)
    (d : EditTable (Option σ)) (p : Option σ × Option σ) :
    sumHyp (procPair ty d p) = sumHyp d + (if p.1.isSome then 1 else 0) := by
  obtain ⟨ph, pr⟩ := p
  cases ph <;> cases pr <;> cases ty <;>
    simp [procPair, dd_modify_sumHyp_const, dd_modify_sumHyp_succ,
      inc_hyp, inc_ref, inc_ins, inc_del, inc_sub]

/-- Folding the inner loop adds one `reference_ct` per reference-carrying
pair. -/
theorem foldl_procPair_sumRef {σ : Type} [DecidableEq σ] (ty : ChunkType)
    (pairs : List (Option σ × Option σ)) (d : EditTable (Option σ)) :
    sumRef (pairs.foldl (procPair ty) d) =
      sumRef d + pairs.countP (fun p => p.2.isSome) := by
  induction pairs generalizing d with
  | nil => simp
  | cons a tl ih =>
    rw [List.foldl_cons, ih, procPair_sumRef, List.countP_cons]
    cases hpa : a.2
    · simp [hpa]
    · simp [hpa]
      omega

/-- Folding the inner loop adds one `hypothesis_ct` per hypothesis-carrying
pair. -/
theorem foldl_procPair_sumHyp {σ : Type} [DecidableEq σ] (ty : ChunkType)
    (pairs : List (Option σ × Option σ)) (d : EditTable (Option σ)) :
    sumHyp (pairs.foldl (procPair ty) d) =
      sumHyp d + pairs.countP (fun p => p.1.isSome) := by
  induction pairs generalizing d with
  | nil => simp
  | cons a tl ih =>
    rw [List.foldl_cons, ih, procPair_sumHyp, List.countP_cons]
    cases hpa : a.1
    · simp [hpa]
    · simp [hpa]
      omega

/-- `zip_longest` yields exactly one reference-carrying pair per element of
the second list. -/
theorem zipLongest_countP_snd {α β : Type} (a : List α) (b : List β) :
    (zipLongest a b).countP (fun p => p.2.isSome) = b.length := by
  induction a generalizing b with
  | nil => simp [zipLongest, List.countP_map, Function.comp]
  | cons x xs ih =>
    cases b with
    | nil => simpa [zipLongest, List.countP_cons] using ih ([] : List β)
    | cons y ys => simp [zipLongest, List.countP_cons, ih ys]

/-- `zip_longest` yields exactly one hypothesis-carrying pair per element of
the first list. -/
theorem zipLongest_countP_fst {α β : Type} (a : List α) (b : List β) :
    (zipLongest a b).countP (fun p => p.1.isSome) = a.length := by
  induction a generalizing b with
  | nil => simp [zipLongest, List.countP_map, Function.comp]
  | cons x xs ih =>
    cases b with
    | nil => simp [zipLongest, List.countP_cons, ih ([] : List β)]
    | cons y ys => simp [zipLongest, List.countP_cons, ih ys]

/-- A well-formed chunk list adds the remaining span lengths to the two
occurrence-count sums. -/
theorem chunk_fold_sums {σ : Type} [DecidableEq σ] (reference hypothesis : List σ)
    (cs : List AlignmentChunk) (r0 h0 : Nat) (d : EditTable (Option σ))
    (hwf : chunks_wf r0 h0 reference.length hypothesis.length cs = true) :
    sumRef (cs.foldl (procChunk reference hypothesis) d) =
        sumRef d + (reference.length - r0) ∧
      sumHyp (cs.foldl (procChunk reference hypothesis) d) =
        sumHyp d + (hypothesis.length - h0) := by
  induction cs generalizing r0 h0 d with
  | nil =>
    simp only [chunks_wf, Bool.and_eq_true, beq_iff_eq] at hwf
    obtain ⟨h1, h2⟩ := hwf
    subst h1
    subst h2
    simp
  | cons c rest ih =>
    simp only [chunks_wf, Bool.and_eq_true, beq_iff_eq, decide_eq_true_eq] at hwf
    obtain ⟨⟨⟨⟨⟨⟨⟨hrs, hhs⟩, hre1⟩, hre2⟩, hhe1⟩, hhe2⟩, hty⟩, hrest⟩ := hwf
    have hslice_r : (pySlice reference c.ref_start_idx c.ref_end_idx).length =
        c.ref_end_idx - r0 := by
      simp only [pySlice, List.length_drop, List.length_take]
      omega
    have hslice_h : (pySlice hypothesis c.hyp_start_idx c.hyp_end_idx).length =
        c.hyp_end_idx - h0 := by
      simp only [pySlice, List.length_drop, List.length_take]
      omega
    have hc : sumRef (procChunk reference hypothesis d c) =
        sumRef d + (c.ref_end_idx - r0) ∧
        sumHyp (procChunk reference hypothesis d c) =
          sumHyp d + (c.hyp_end_idx - h0) := by
      unfold procChunk
      rw [foldl_procPair_sumRef, foldl_procPair_sumHyp, zipLongest_countP_snd,
        zipLongest_countP_fst, hslice_r, hslice_h]
      exact ⟨rfl, rfl⟩
    rw [List.foldl_cons]
    obtain ⟨ihr, ihh⟩ := ih c.ref_end_idx c.hyp_end_idx
      (procChunk reference hypothesis d c) hrest
    constructor
    · rw [ihr, hc.1]
      omega
    · rw [ihh, hc.2]
      omega

/-- C6: for every single record whose alignment chunks satisfy the §3
coverage invariant, accumulating that record into an empty table yields a
table whose `reference_ct` values sum to the reference length and whose
`hypothesis_ct` values sum to the hypothesis length. -/
theorem C6_occurrence_conservation {σ : Type} [DecidableEq σ]
    (reference hypothesis : List σ) (cs : List AlignmentChunk)
    (hwf : chunks_wf 0 0 reference.length hypothesis.length cs = true) :
    sumRef (get_edit_dict reference hypothesis cs (edit_dict_factory (Option σ))) =
        reference.length ∧
      sumHyp (get_edit_dict reference hypothesis cs (edit_dict_factory (Option σ))) =
        hypothesis.length := by
  have h := chunk_fold_sums reference hypothesis cs 0 0 (edit_dict_factory (Option σ)) hwf
  simpa [get_edit_dict, edit_dict_factory, sumRef, sumHyp] using h

/-- Witness for C6 at Scenario 1. -/
theorem C6_occurrence_conservation_witness :
    sumRef (get_edit_dict catL cotL scenario1_chunks (edit_dict_factory (Option Char))) =
        catL.length ∧
      sumHyp (get_edit_dict catL cotL scenario1_chunks (edit_dict_factory (Option Char))) =
        cotL.length :=
  C6_occurrence_conservation catL cotL scenario1_chunks (by decide)

/-- Members of an updated table are old members or the updated entry at the
updated key, acting on the old value there or on the factory default. -/
theorem mem_dd_modify {κ : Type} [DecidableEq κ] {d : EditTable κ} {k : κ}
    {f : RawEntry κ → RawEntry κ} {p : κ × RawEntry κ}
    (hp : p ∈ dd_modify d k f) :
    p ∈ d ∨ ∃ e, p = (k, f e) ∧ ((k, e) ∈ d ∨ e = default_edit_entry κ) := by
  induction d with
  | nil =>
    simp only [dd_modify, List.mem_singleton] at hp
    exact Or.inr ⟨default_edit_entry κ, hp, Or.inr rfl⟩
  | cons a tl ih =>
    obtain ⟨k1, e1⟩ := a
    by_cases hk : k1 = k
    · subst hk
      simp only [dd_modify, if_pos rfl] at hp
      cases hp with
      | head => exact Or.inr ⟨e1, rfl, Or.inl (List.mem_cons_self _ _)⟩
      | tail _ h => exact Or.inl (List.mem_cons_of_mem _ h)
    · simp only [dd_modify, if_neg hk] at hp
      cases hp with
      | head => exact Or.inl (List.mem_cons_self _ _)
      | tail _ h =>
        rcases ih h with h2 | ⟨e, he, hm⟩
        · exact Or.inl (List.mem_cons_of_mem _ h2)
        · refine Or.inr ⟨e, he, ?_⟩
          rcases hm with hm | hm
          · exact Or.inl (List.mem_cons_of_mem _ hm)
          · exact Or.inr hm

/-- Members of an updated substitute dict are old members or the updated
count at the updated target. -/
theorem mem_sub_modify {κ : Type} [DecidableEq κ] {l : List (κ × SubCt)} {k : κ}
    {f : SubCt → SubCt} {p : κ × SubCt}
    (hp : p ∈ sub_modify l k f) :
    p ∈ l ∨ ∃ s, p = (k, f s) ∧ ((k, s) ∈ l ∨ s = { ct := 0 }) := by
  induction l with
  | nil =>
    simp only [sub_modify, List.mem_singleton] at hp
    exact Or.inr ⟨{ ct := 0 }, hp, Or.inr rfl⟩
  | cons a tl ih =>
    obtain ⟨k1, s1⟩ := a
    by_cases hk : k1 = k
    · subst hk
      simp only [sub_modify, if_pos rfl] at hp
      cases hp with
      | head => exact Or.inr ⟨s1, rfl, Or.inl (List.mem_cons_self _ _)⟩
      | tail _ h => exact Or.inl (List.mem_cons_of_mem _ h)
    · simp only [sub_modify, if_neg hk] at hp
      cases hp with
      | head => exact Or.inl (List.mem_cons_self _ _)
      | tail _ h =>
        rcases ih h with h2 | ⟨s, hs, hm⟩
        · exact Or.inl (List.mem_cons_of_mem _ h2)
        · refine Or.inr ⟨s, hs, ?_⟩
          rcases hm with hm | hm
          · exact Or.inl (List.mem_cons_of_mem _ hm)
          · exact Or.inr hm

/-- The factory default entry satisfies the count invariants. -/
theorem default_entry_inv (κ : Type) : entry_inv (default_edit_entry κ) := by
  refine ⟨Nat.le_refl 0, Nat.le_refl 0, ?_⟩
  intro p hp
  simp [default_edit_entry] at hp

/-- A defaultdict update with an invariant-preserving entry transform
preserves the table invariants. -/
theorem table_inv_dd_modify {κ : Type} [DecidableEq κ] {d : EditTable κ} (k : κ)
    {f : RawEntry κ → RawEntry κ} (hd : table_inv d)
    (hf : ∀ e, entry_inv e → entry_inv (f e)) :
    table_inv (dd_modify d k f) := by
  intro p hp
  rcases mem_dd_modify hp with h | ⟨e, rfl, he⟩
  · exact hd p h
  · rcases he with he | rfl
    · exact hf e (hd (k, e) he)
    · exact hf _ (default_entry_inv κ)

/-- Two consecutive updates at the same key fuse. -/
theorem dd_modify_modify {κ : Type} [DecidableEq κ] (d : EditTable κ) (k : κ)
    (f g : RawEntry κ → RawEntry κ) :
    dd_modify (dd_modify d k f) k g = dd_modify d k (fun e => g (f e)) := by
  induction d with
  | nil => simp [dd_modify]
  | cons a tl ih =>
    obtain ⟨k1, e1⟩ := a
    by_cases hk : k1 = k
    · simp [dd_modify, hk]
    · simp [dd_modify, hk, ih]

/-- Raising `hypothesis_ct` preserves the entry invariants. -/
theorem entry_inv_inc_hyp {κ : Type} {e : RawEntry κ} (h : entry_inv e) :
    entry_inv (inc_hyp e) := by
  obtain ⟨hi, hd2, hs⟩ := h
  exact ⟨Nat.le_succ_of_le hi, hd2, hs⟩

/-- Raising `reference_ct` preserves the entry invariants. -/
theorem entry_inv_inc_ref {κ : Type} {e : RawEntry κ} (h : entry_inv e) :
    entry_inv (inc_ref e) := by
  obtain ⟨hi, hd2, hs⟩ := h
  exact ⟨hi, Nat.le_succ_of_le hd2, fun p hp => Nat.le_succ_of_le (hs p hp)⟩

/-- Raising `insert` and `hypothesis_ct` together preserves the entry
invariants. -/
theorem entry_inv_ins_hyp {κ : Type} {e : RawEntry κ} (h : entry_inv e) :
    entry_inv (inc_ins (inc_hyp e)) := by
  obtain ⟨hi, hd2, hs⟩ := h
  exact ⟨Nat.succ_le_succ hi, hd2, hs⟩

/-- Raising `delete` and `reference_ct` together preserves the entry
invariants. -/
theorem entry_inv_del_ref {κ : Type} {e : RawEntry κ} (h : entry_inv e) :
    entry_inv (inc_del (inc_ref e)) := by
  obtain ⟨hi, hd2, hs⟩ := h
  exact ⟨hi, Nat.succ_le_succ hd2, fun p hp => Nat.le_succ_of_le (hs p hp)⟩

/-- Raising one substitution count together with `reference_ct` preserves the
entry invariants. -/
theorem entry_inv_sub_ref {κ : Type} [DecidableEq κ] (t : κ) {e : RawEntry κ}
    (h : entry_inv e) : entry_inv (inc_sub t (inc_ref e)) := by
  obtain ⟨hi, hd2, hs⟩ := h
  refine ⟨hi, Nat.le_succ_of_le hd2, ?_⟩
  intro p hp
  rcases mem_sub_modify hp with h2 | ⟨s, rfl, hm⟩
  · exact Nat.le_succ_of_le (hs p h2)
  · rcases hm with hm | rfl
    · exact Nat.succ_le_succ (hs (t, s) hm)
    · exact Nat.succ_le_succ (Nat.zero_le _)

/-- An `equal` inner-loop step preserves the table invariants for any pair
shape (it only raises occurrence counts). -/
theorem procPair_inv_equal {σ : Type} [DecidableEq σ] (d : EditTable (Option σ))
    (p : Option σ × Option σ) (hd : table_inv d) :
    table_inv (procPair ChunkType.equal d p) := by
  obtain ⟨ph, pr⟩ := p
  cases ph <;> cases pr
  · exact hd
  · exact table_inv_dd_modify _ hd (fun e he => entry_inv_inc_ref he)
  · exact table_inv_dd_modify _ hd (fun e he => entry_inv_inc_hyp he)
  · exact table_inv_dd_modify _
      (table_inv_dd_modify _ hd (fun e he => entry_inv_inc_hyp he))
      (fun e he => entry_inv_inc_ref he)

/-- An `insert` inner-loop step on a hypothesis-only pair preserves the table
invariants. -/
theorem procPair_inv_ins {σ : Type} [DecidableEq σ] (d : EditTable (Option σ))
    (x : σ) (hd : table_inv d) :
    table_inv (procPair ChunkType.insert d (some x, none)) := by
  have h1 : procPair ChunkType.insert d (some x, none) =
      dd_modify d (some x) (fun e => inc_ins (inc_hyp e)) := by
    simp only [procPair]
    exact dd_modify_modify d (some x) inc_hyp inc_ins
  rw [h1]
  exact table_inv_dd_modify _ hd (fun e he => entry_inv_ins_hyp he)

/-- A `delete` inner-loop step on a reference-only pair preserves the table
invariants. -/
theorem procPair_inv_del {σ : Type} [DecidableEq σ] (d : EditTable (Option σ))
    (x : σ) (hd : table_inv d) :
    table_inv (procPair ChunkType.delete d (none, some x)) := by
  have h1 : procPair ChunkType.delete d (none, some x) =
      dd_modify d (some x) (fun e => inc_del (inc_ref e)) := by
    simp only [procPair]
    exact dd_modify_modify d (some x) inc_ref inc_del
  rw [h1]
  exact table_inv_dd_modify _ hd (fun e he => entry_inv_del_ref he)

/-- A `substitute` inner-loop step on a two-symbol pair preserves the table
invariants. -/
theorem procPair_inv_sub {σ : Type} [DecidableEq σ] (d : EditTable (Option σ))
    (x y : σ) (hd : table_inv d) :
    table_inv (procPair ChunkType.substitute d (some x, some y)) := by
  have h1 : procPair ChunkType.substitute d (some x, some y) =
      dd_modify (dd_modify d (some x) inc_hyp) (some y)
        (fun e => inc_sub (some x) (inc_ref e)) := by
    simp only [procPair]
    exact dd_modify_modify _ (some y) inc_ref (inc_sub (some x))
  rw [h1]
  exact table_inv_dd_modify _
    (table_inv_dd_modify _ hd (fun e he => entry_inv_inc_hyp he))
    (fun e he => entry_inv_sub_ref (some x) he)

/-- Folding the inner loop over shape-conforming pairs preserves the table
invariants. -/
theorem foldl_procPair_inv {σ : Type} [DecidableEq σ] (ty : ChunkType)
    (pairs : List (Option σ × Option σ)) (d : EditTable (Option σ))
    (hd : table_inv d) (hsh : ∀ p ∈ pairs, shape_ok ty p) :
    table_inv (pairs.foldl (procPair ty) d) := by
  induction pairs generalizing d with
  | nil => exact hd
  | cons a tl ih =>
    rw [List.foldl_cons]
    refine ih _ ?_ (fun p hp => hsh p (List.mem_cons_of_mem _ hp))
    have ha := hsh a (List.mem_cons_self _ _)
    cases ty with
    | equal => exact procPair_inv_equal d a hd
    | insert =>
      obtain ⟨x, rfl⟩ := ha
      exact procPair_inv_ins d x hd
    | delete =>
      obtain ⟨x, rfl⟩ := ha
      exact procPair_inv_del d x hd
    | substitute =>
      obtain ⟨x, y, rfl⟩ := ha
      exact procPair_inv_sub d x y hd

/-- Pairs of `zip_longest` with an empty second list are hypothesis-only. -/
theorem zipLongest_nil_right_shape {α β : Type} (a : List α)
    (p : Option α × Option β) (hp : p ∈ zipLongest a ([] : List β)) :
    ∃ x, p = (some x, none) := by
  induction a with
  | nil => simp [zipLongest] at hp
  | cons x xs ih =>
    cases hp with
    | head => exact ⟨x, rfl⟩
    | tail _ h => exact ih h

/-- Pairs of `zip_longest` with an empty first list are reference-only. -/
theorem zipLongest_nil_left_shape {α β : Type} (b : List β)
    (p : Option α × Option β) (hp : p ∈ zipLongest ([] : List α) b) :
    ∃ y, p = (none, some y) := by
  simp only [zipLongest, List.mem_map] at hp
  obtain ⟨y, hy, rfl⟩ := hp
  exact ⟨y, rfl⟩

/-- Pairs of `zip_longest` over equal-length lists carry both symbols. -/
theorem zipLongest_eq_len_shape {α β : Type} (a : List α) (b : List β)
    (hlen : a.length = b.length) (p : Option α × Option β)
    (hp : p ∈ zipLongest a b) : ∃ x y, p = (some x, some y) := by
  induction a generalizing b with
  | nil =>
    cases b with
    | nil => simp [zipLongest] at hp
    | cons y ys => simp at hlen
  | cons x xs ih =>
    cases b with
    | nil => simp at hlen
    | cons y ys =>
      cases hp with
      | head => exact ⟨x, y, rfl⟩
      | tail _ h => exact ih ys (by simpa using hlen) h

/-- A Python slice with coinciding bounds is empty. -/
theorem pySlice_empty {α : Type} (l : List α) (s e : Nat) (he : e = s) :
    pySlice l s e = [] := by
  subst he
  apply List.drop_eq_nil_of_le
  simp [List.length_take_le]

/-- One well-shaped chunk preserves the table invariants: `insert` chunks
come with an empty reference slice, `delete` chunks with an empty hypothesis
slice, `substitute` chunks with slices of equal length. -/
theorem procChunk_inv {σ : Type} [DecidableEq σ] (reference hypothesis : List σ)
    (c : AlignmentChunk) (d : EditTable (Option σ)) (hd : table_inv d)
    (hty : match c.type with
      | ChunkType.insert => pySlice reference c.ref_start_idx c.ref_end_idx = []
      | ChunkType.delete => pySlice hypothesis c.hyp_start_idx c.hyp_end_idx = []
      | ChunkType.substitute =>
          (pySlice hypothesis c.hyp_start_idx c.hyp_end_idx).length =
            (pySlice reference c.ref_start_idx c.ref_end_idx).length
      | ChunkType.equal => True) :
    table_inv (procChunk reference hypothesis d c) := by
  unfold procChunk
  apply foldl_procPair_inv _ _ _ hd
  intro p hp
  cases hc : c.type with
  | equal => trivial
  | insert =>
    have hty2 : pySlice reference c.ref_start_idx c.ref_end_idx = [] := by
      rw [hc] at hty
      exact hty
    rw [hty2] at hp
    exact zipLongest_nil_right_shape _ p hp
  | delete =>
    have hty2 : pySlice hypothesis c.hyp_start_idx c.hyp_end_idx = [] := by
      rw [hc] at hty
      exact hty
    rw [hty2] at hp
    exact zipLongest_nil_left_shape _ p hp
  | substitute =>
    have hty2 : (pySlice hypothesis c.hyp_start_idx c.hyp_end_idx).length =
        (pySlice reference c.ref_start_idx c.ref_end_idx).length := by
      rw [hc] at hty
      exact hty
    exact zipLongest_eq_len_shape _ _ hty2 p hp

/-- A §3-well-formed chunk list preserves the table invariants. -/
theorem chunk_fold_inv {σ : Type} [DecidableEq σ] (reference hypothesis : List σ)
    (cs : List AlignmentChunk) (r0 h0 : Nat) (d : EditTable (Option σ))
    (hwf : chunks_wf r0 h0 reference.length hypothesis.length cs = true)
    (hd : table_inv d) :
    table_inv (cs.foldl (procChunk reference hypothesis) d) := by
  induction cs generalizing r0 h0 d with
  | nil => exact hd
  | cons c rest ih =>
    simp only [chunks_wf, Bool.and_eq_true, beq_iff_eq, decide_eq_true_eq] at hwf
    obtain ⟨⟨⟨⟨⟨⟨⟨hrs, hhs⟩, hre1⟩, hre2⟩, hhe1⟩, hhe2⟩, hty⟩, hrest⟩ := hwf
    rw [List.foldl_cons]
    refine ih c.ref_end_idx c.hyp_end_idx _ hrest ?_
    apply procChunk_inv reference hypothesis c d hd
    cases hc : c.type with
    | equal => trivial
    | insert =>
      have h2 : (c.ref_end_idx == c.ref_start_idx) = true := by
        rw [hc] at hty
        exact hty
      exact pySlice_empty reference _ _ (beq_iff_eq.mp h2)
    | delete =>
      have h2 : (c.hyp_end_idx == c.hyp_start_idx) = true := by
        rw [hc] at hty
        exact hty
      exact pySlice_empty hypothesis _ _ (beq_iff_eq.mp h2)
    | substitute =>
      have h2 : ((c.ref_end_idx - c.ref_start_idx == c.hyp_end_idx - c.hyp_start_idx) &&
          decide (c.ref_start_idx < c.ref_end_idx)) = true := by
        rw [hc] at hty
        exact hty
      simp only [Bool.and_eq_true, beq_iff_eq, decide_eq_true_eq] at h2
      obtain ⟨h2a, h2b⟩ := h2
      simp only [pySlice, List.length_drop, List.length_take]
      omega

/-- C7: every edit table reachable from the empty table by Accumulate calls
whose alignments satisfy the §3 coverage invariant satisfies the count
invariants: for all symbols and targets, `insert ≤ hypothesis_ct`,
`delete ≤ reference_ct`, and each substitution count is at most
`reference_ct`. -/
theorem C7_reachable_invariant {σ : Type} [DecidableEq σ]
    (d : EditTable (Option σ)) (h : Reachable d) : table_inv d := by
  induction h with
  | empty =>
    intro p hp
    cases hp
  | step reference hypothesis cs d0 hr hwf ih =>
    exact chunk_fold_inv reference hypothesis cs 0 0 d0 hwf ih

/-- Witness for C7 at the Scenario 1 table. -/
theorem C7_reachable_invariant_witness :
    table_inv (get_edit_dict catL cotL scenario1_chunks (edit_dict_factory (Option Char))) :=
  C7_reachable_invariant _
    (Reachable.step catL cotL scenario1_chunks (edit_dict_factory (Option Char))
      Reachable.empty (by decide))
